import Mathlib

/-!
Shallow embedding of `xrmocap/utils/triangulation_utils.py`.

Tensors (numpy ndarrays) are modelled as a shape (list of axis lengths)
together with a flat row-major data list.  Mask/point elements are either
`nan` (numpy's float NaN) or an exact numeric value; the source only ever
compares elements with `== 1.0`, `== 0` and `np.isnan`, so exact rationals
faithfully model the float semantics that the functions rely on.
Python exceptions are modelled with `Except`; each distinct raise site of
the source gets its own error constructor.
-/

attribute [local semireducible] Rat.add Rat.mul Rat.inv Rat.sub

/-- Element of a numpy float array: NaN or an exact numeric value. -/
inductive Val where
  | nan : Val
  | num : ℚ → Val
deriving DecidableEq, Repr

/-- Model of `np.isnan` on one element. -/
def Val.isNan : Val → Bool
  | .nan => true
  | .num _ => false

/-- Model of `x == 1.0` on one element (NaN compares unequal to 1.0). -/
def Val.isOne : Val → Bool
  | .nan => false
  | .num q => q == 1

/-- A numpy ndarray: shape plus flat row-major data. -/
structure Tensor where
  shape : List ℕ
  data : List Val
deriving DecidableEq, Repr

/-- Flat element access (out-of-range reads a default; all theorems only
evaluate it in range). -/
def Tensor.get (t : Tensor) (i : ℕ) : Val := t.data.getD i (Val.num 0)

/-- `t.shape[0]`. -/
def Tensor.shape0 (t : Tensor) : ℕ := t.shape.headD 0

/-- `t.shape[-1]`. -/
def Tensor.shapeLast (t : Tensor) : ℕ := t.shape.getLastD 0

/-- `s[-2]` of a shape tuple with at least two axes. -/
def secondLast (s : List ℕ) : ℕ := s.getD (s.length - 2) 0

/-- `np.ones(s)` (also `np.ones_like` of a float array of shape `s`). -/
def onesTensor (s : List ℕ) : Tensor := ⟨s, List.replicate s.prod (Val.num 1)⟩

/-- `points_mask[:, point_index, 0]` for a rank-3 mask
`[n_view, n_point, s2]` (source line 60). -/
def pairData (m : Tensor) (p : ℕ) : List Val :=
  (List.range (m.shape.getD 0 0)).map
    (fun v => m.get (v * (m.shape.getD 1 0 * m.shape.getD 2 0) + p * m.shape.getD 2 0))

/-- `len(pair_data[np.isnan(pair_data)]) > 0` (source lines 61-63). -/
def hasNanPair (m : Tensor) (p : ℕ) : Bool := (pairData m p).any Val.isNan

/-- `int(np.sum(pair_data == 1.0))` (source lines 66-68). -/
def nValid (m : Tensor) (p : ℕ) : ℕ := ((pairData m p).filter Val.isOne).length

/-- `__init_valid_views_dict__`: dict with keys `0..concerned_n_view-1`,
all values `0.0`, modelled as a list indexed by key (source lines 8-23). -/
def init_valid_views_dict (concerned_n_view : ℕ) : List ℚ :=
  List.replicate concerned_n_view 0

/-- Histogram update for one non-NaN point: increment bucket `n_valid`
when `n_valid` is among the dict keys, i.e. `< concerned_n_view`
(source lines 66-71). -/
def bucketStep (cnv : ℕ) (m : Tensor) (hist : List ℚ) (p : ℕ) : List ℚ :=
  if nValid m p < cnv then hist.set (nValid m p) (hist.getD (nValid m p) 0 + 1)
  else hist

/-- Loop body of `get_valid_views_stats` over one point index, carrying
`(valid_stats_dict, total_pairs)` (source lines 59-71). -/
def statStep (cnv : ℕ) (m : Tensor) (st : List ℚ × ℕ) (p : ℕ) : List ℚ × ℕ :=
  if hasNanPair m p then (st.1, st.2 - 1)
  else (bucketStep cnv m st.1 p, st.2)

/-- State after the counting loop of `get_valid_views_stats` (source
lines 55-71): `range` is evaluated once at `n_point`, while `total_pairs`
is decremented inside the loop. -/
def valid_views_raw (m : Tensor) (cnv : ℕ) : List ℚ × ℕ :=
  (List.range (m.shape.getD 1 0)).foldl (statStep cnv m)
    (init_valid_views_dict cnv, m.shape.getD 1 0)

/-- `get_valid_views_stats(points_mask, concerned_n_view, return_rate)`
(source lines 26-82).  Returns the histogram together with the final
`total_pairs` value; the prettytable string output is pure formatting of
the histogram and is not modelled. -/
def get_valid_views_stats (m : Tensor) (cnv : ℕ) (return_rate : Bool) :
    List ℚ × ℕ :=
  if return_rate && decide (0 < (valid_views_raw m cnv).2) then
    ((valid_views_raw m cnv).1.map
        (fun x => x / ((valid_views_raw m cnv).2 : ℚ)),
      (valid_views_raw m cnv).2)
  else valid_views_raw m cnv

/-- One constructor per distinct raise site of the source file. -/
inductive TriErr where
  | invalidInputPoints
  | invalidInputMask
  | viewCountMismatch
  | coordWidthTooSmall
  | maskShapeMismatch
  | keypointCountMismatch
  | attributeError
  | indexError
deriving DecidableEq, Repr

/-- Whether an error kind belongs to the spec's error taxonomy (§7). -/
def specTaxonomy : TriErr → Bool
  | .invalidInputPoints => true
  | .invalidInputMask => true
  | .viewCountMismatch => true
  | .coordWidthTooSmall => true
  | .maskShapeMismatch => true
  | .keypointCountMismatch => true
  | .attributeError => false
  | .indexError => false

/-- A Python value handed to the functions: an ndarray, a list/tuple whose
`np.asarray` coercion yields the carried tensor, `None`, or any other
object. -/
inductive InVal where
  | arr : Tensor → InVal
  | seq : Tensor → InVal
  | pynone : InVal
  | other : InVal
deriving DecidableEq, Repr

/-- The list/tuple-to-ndarray coercion of source lines 130-131 and 139-140
followed by the `isinstance(_, np.ndarray)` test. -/
def coerceInput : InVal → Option Tensor
  | .arr t => some t
  | .seq t => some t
  | .pynone => none
  | .other => none

/-- The three shape validations of `prepare_triangulate_input`
(source lines 147-167).  Indexing `shape[0]` of a 0-d array raises
IndexError in numpy, checked first as Python evaluates it inside the
first condition. -/
def shapeChecks (camera_number : ℕ) (points points_mask : Tensor) :
    Except TriErr (Tensor × Tensor) :=
  if points.shape.isEmpty || points_mask.shape.isEmpty then
    .error .indexError
  else if ¬(points.shape0 = points_mask.shape0 ∧
      points.shape0 = camera_number) then
    .error .viewCountMismatch
  else if points.shapeLast < 2 then
    .error .coordWidthTooSmall
  else if points.shape.dropLast ≠ points_mask.shape.dropLast ∨
      points_mask.shapeLast ≠ 1 then
    .error .maskShapeMismatch
  else
    .ok (points, points_mask)

/-- `prepare_triangulate_input(camera_number, points, points_mask)`
(source lines 85-167).  When `points_mask` is `None` the mask is
synthesized as `np.ones_like(points[..., 0:1])` (line 138), which raises
IndexError on a 0-d points array. -/
def prepare_triangulate_input (camera_number : ℕ)
    (points points_mask : InVal) : Except TriErr (Tensor × Tensor) :=
  match coerceInput points with
  | none => .error .invalidInputPoints
  | some pts =>
    match points_mask with
    | .pynone =>
        if pts.shape.isEmpty then .error .indexError
        else shapeChecks camera_number pts
          (onesTensor (pts.shape.dropLast ++ [1]))
    | mv =>
        match coerceInput mv with
        | none => .error .invalidInputMask
        | some m => shapeChecks camera_number pts m

/-- The mask tensor `prepare_triangulate_input` validates against, as a
function of the coerced points tensor and the raw mask argument. -/
def coercedMask (points : Tensor) : InVal → Option Tensor
  | .pynone => some (onesTensor (points.shape.dropLast ++ [1]))
  | .arr m => some m
  | .seq m => some m
  | .other => none

/-- Whether first-axis index `k` of `keypoints_mask` appears in
`np.where(keypoints_mask == 0)[0]`, i.e. some entry of row `k`
equals 0 (source line 213). -/
def rowHasZero (km : Tensor) (k : ℕ) : Bool :=
  (List.range (km.shape.drop 1).prod).any
    (fun j => decide (km.get (k * (km.shape.drop 1).prod + j) = Val.num 0))

/-- Source lines 213-217: reshape the mask to
`(-1, shape[-2], shape[-1])`, assign NaN to every row of the middle axis
listed in `np.where(keypoints_mask == 0)[0]`, reshape back.  On the flat
row-major data, element `i` sits at middle coordinate
`(i / shape[-1]) % shape[-2]`. -/
def applyKeypointNan (tmask km : Tensor) : Tensor :=
  ⟨tmask.shape,
    tmask.data.mapIdx (fun i v =>
      if rowHasZero km ((i / tmask.shape.getLastD 0) % secondLast tmask.shape)
      then Val.nan else v)⟩

/-- `parse_keypoints_mask(keypoints, keypoints_mask)` (source lines
170-218).  `keypoints.shape[0]` is evaluated at the call of line 205, so a
non-ndarray `keypoints` raises AttributeError before anything else;
`keypoints_mask.shape[0]` is evaluated at line 207, after the delegated
normalization, so a non-ndarray (or omitted) `keypoints_mask` raises
AttributeError there. -/
def parse_keypoints_mask (keypoints keypoints_mask : InVal) :
    Except TriErr Tensor :=
  match keypoints with
  | .arr kpA =>
    if kpA.shape.isEmpty then .error .indexError
    else
      match prepare_triangulate_input kpA.shape0 (.arr kpA) .pynone with
      | .error e => .error e
      | .ok pm =>
        match keypoints_mask with
        | .arr kmA =>
          if kmA.shape.isEmpty then .error .indexError
          else if secondLast pm.1.shape ≠ kmA.shape0 then
            .error .keypointCountMismatch
          else .ok (applyKeypointNan pm.2 kmA)
        | _ => .error .attributeError
  | _ => .error .attributeError

/-- `getD` after `set` at an in-range index. -/
theorem getD_set_lt (h : List ℚ) (i k : ℕ) (a : ℚ) (hi : i < h.length) :
    (h.set i a).getD k 0 = if i = k then a else h.getD k 0 := by
  simp only [List.getD_eq_getElem?_getD, List.getElem?_set, hi, if_true]
  split <;> simp

/-- Incrementing one in-range entry adds 1 to the sum. -/
theorem sum_set_incr (h : List ℚ) : ∀ i : ℕ, i < h.length →
    (h.set i (h.getD i 0 + 1)).sum = h.sum + 1 := by
  induction h with
  | nil => intro i hi; simp at hi
  | cons a t ih =>
    intro i hi
    cases i with
    | zero => simp [add_comm, add_assoc, add_left_comm]
    | succ j =>
      simp only [List.getD_cons_succ, List.set_cons_succ, List.sum_cons,
        List.length_cons] at *
      rw [ih j (Nat.lt_of_succ_lt_succ hi), add_assoc]

/-- The counting loop splits: the histogram is folded only over the
non-NaN point indices, and `total_pairs` loses one unit per NaN point. -/
theorem statStep_foldl (cnv : ℕ) (m : Tensor) : ∀ (l : List ℕ)
    (h : List ℚ) (tot : ℕ),
    l.foldl (statStep cnv m) (h, tot) =
      ((l.filter (fun p => !hasNanPair m p)).foldl (bucketStep cnv m) h,
        tot - l.countP (fun p => hasNanPair m p)) := by
  intro l
  induction l with
  | nil => intro h tot; simp
  | cons p l ih =>
    intro h tot
    by_cases hp : hasNanPair m p
    · rw [List.foldl_cons]
      have h1 : statStep cnv m (h, tot) p = (h, tot - 1) := by
        simp [statStep, hp]
      rw [h1, ih, Prod.mk.injEq]
      refine ⟨by simp [hp], ?_⟩
      rw [List.countP_cons]
      simp only [hp, if_pos]
      omega
    · rw [List.foldl_cons]
      have h1 : statStep cnv m (h, tot) p = (bucketStep cnv m h p, tot) := by
        simp [statStep, hp]
      rw [h1, ih, Prod.mk.injEq]
      refine ⟨by simp [hp], ?_⟩
      rw [List.countP_cons]
      simp [hp]

/-- Each bucket of the folded histogram counts the points whose valid-view
number equals that bucket's key. -/
theorem bucketStep_foldl_getD (cnv : ℕ) (m : Tensor) : ∀ (l : List ℕ)
    (h : List ℚ), h.length = cnv → ∀ k, k < cnv →
    (l.foldl (bucketStep cnv m) h).getD k 0 =
      h.getD k 0 + (l.countP (fun p => decide (nValid m p = k)) : ℚ) := by
  intro l
  induction l with
  | nil => intro h _ k _; simp
  | cons p l ih =>
    intro h hlen k hk
    have hc : List.countP (fun p => decide (nValid m p = k)) (p :: l) =
        List.countP (fun p => decide (nValid m p = k)) l +
          (if nValid m p = k then 1 else 0) := by
      rw [List.countP_cons]
      by_cases hek : nValid m p = k <;> simp [hek]
    rw [List.foldl_cons, hc]
    by_cases hnv : nValid m p < cnv
    · have hset : (bucketStep cnv m h p) =
          h.set (nValid m p) (h.getD (nValid m p) 0 + 1) := by
        simp [bucketStep, hnv]
      rw [hset, ih _ (by simp [hlen]) k hk,
        getD_set_lt h _ k _ (by rw [hlen]; exact hnv)]
      by_cases hek : nValid m p = k
      · rw [if_pos hek, if_pos hek, hek]
        push_cast
        ring
      · rw [if_neg hek, if_neg hek]
        push_cast
        ring
    · have hset : (bucketStep cnv m h p) = h := by simp [bucketStep, hnv]
      have hek : ¬(nValid m p = k) := fun he => hnv (he ▸ hk)
      rw [hset, ih _ hlen k hk, if_neg hek]
      push_cast
      ring

/-- The folded histogram's total mass counts the points whose valid-view
number is below the bucket ceiling. -/
theorem bucketStep_foldl_sum (cnv : ℕ) (m : Tensor) : ∀ (l : List ℕ)
    (h : List ℚ), h.length = cnv →
    (l.foldl (bucketStep cnv m) h).sum =
      h.sum + (l.countP (fun p => decide (nValid m p < cnv)) : ℚ) := by
  intro l
  induction l with
  | nil => intro h _; simp
  | cons p l ih =>
    intro h hlen
    have hc : List.countP (fun p => decide (nValid m p < cnv)) (p :: l) =
        List.countP (fun p => decide (nValid m p < cnv)) l +
          (if nValid m p < cnv then 1 else 0) := by
      rw [List.countP_cons]
      by_cases hnv : nValid m p < cnv <;> simp [hnv]
    rw [List.foldl_cons, hc]
    by_cases hnv : nValid m p < cnv
    · have hset : (bucketStep cnv m h p) =
          h.set (nValid m p) (h.getD (nValid m p) 0 + 1) := by
        simp [bucketStep, hnv]
      rw [hset, ih _ (by simp [hlen]),
        sum_set_incr h (nValid m p) (by rw [hlen]; exact hnv), if_pos hnv]
      push_cast
      ring
    · have hset : (bucketStep cnv m h p) = h := by simp [bucketStep, hnv]
      rw [hset, ih _ hlen, if_neg hnv]
      push_cast
      ring

theorem init_valid_views_dict_length (cnv : ℕ) :
    (init_valid_views_dict cnv).length = cnv := by
  simp [init_valid_views_dict]

theorem init_valid_views_dict_getD (cnv k : ℕ) :
    (init_valid_views_dict cnv).getD k 0 = 0 := by
  simp only [init_valid_views_dict, List.getD_eq_getElem?_getD,
    List.getElem?_replicate]
  split <;> simp

theorem init_valid_views_dict_sum (cnv : ℕ) :
    (init_valid_views_dict cnv).sum = 0 := by
  simp [init_valid_views_dict, List.sum_replicate]

/-- The spec's §8.7 scenario: mask of shape `[3, 4, 1]`, all ones except
point index 2, which holds `[1, 0, 1]` across the 3 views. -/
def maskHistEx : Tensor :=
  ⟨[3, 4, 1],
    [Val.num 1, Val.num 1, Val.num 1, Val.num 1,
     Val.num 1, Val.num 1, Val.num 0, Val.num 1,
     Val.num 1, Val.num 1, Val.num 1, Val.num 1]⟩

/-- Mask of shape `[2, 2, 1]` whose point 1 holds a NaN in view 0. -/
def maskNanEx : Tensor :=
  ⟨[2, 2, 1], [Val.num 1, Val.nan, Val.num 1, Val.num 1]⟩

/-- Mask of shape `[1, 1, 1]` whose only point is NaN everywhere. -/
def maskAllNanEx : Tensor := ⟨[1, 1, 1], [Val.nan]⟩

/-- C2: for every mask of shape `[n_view, n_point, 1]`, a point whose
view slice contains at least one NaN is hard-excluded: the histogram is
folded only over the NaN-free point indices, and the `total_pairs` value
used afterwards equals `n_point` minus the number of NaN-containing
points. -/
theorem C2_nan_points_hard_excluded (m : Tensor) (nv np cnv : ℕ) (rr : Bool)
    (h : m.shape = [nv, np, 1]) :
    (get_valid_views_stats m cnv rr).2 =
      np - (List.range np).countP (fun p => hasNanPair m p) ∧
    (get_valid_views_stats m cnv false).1 =
      ((List.range np).filter (fun p => !hasNanPair m p)).foldl
        (bucketStep cnv m) (init_valid_views_dict cnv) := by
  have hnp : m.shape.getD 1 0 = np := by rw [h]; rfl
  have hraw : valid_views_raw m cnv =
      (((List.range np).filter (fun p => !hasNanPair m p)).foldl
          (bucketStep cnv m) (init_valid_views_dict cnv),
        np - (List.range np).countP (fun p => hasNanPair m p)) := by
    unfold valid_views_raw
    rw [hnp, statStep_foldl]
  have h2 : (get_valid_views_stats m cnv rr).2 =
      (valid_views_raw m cnv).2 := by
    simp only [get_valid_views_stats]
    split <;> rfl
  have h1 : get_valid_views_stats m cnv false = valid_views_raw m cnv := by
    simp [get_valid_views_stats]
  exact ⟨by rw [h2, hraw], by rw [h1, hraw]⟩

theorem C2_nan_points_hard_excluded_witness :
    (get_valid_views_stats maskNanEx 3 true).2 =
      2 - (List.range 2).countP (fun p => hasNanPair maskNanEx p) ∧
    (get_valid_views_stats maskNanEx 3 false).1 =
      ((List.range 2).filter (fun p => !hasNanPair maskNanEx p)).foldl
        (bucketStep 3 maskNanEx) (init_valid_views_dict 3) :=
  C2_nan_points_hard_excluded maskNanEx 2 2 3 true rfl

/-- C3: with `return_rate` true, every histogram bucket is divided by
`total_pairs` when the post-exclusion `total_pairs` is positive; when
`total_pairs` is 0 the division is skipped and the raw histogram (then
necessarily all zeros) is returned without failing. -/
theorem C3_rate_division_guarded (m : Tensor) (cnv : ℕ) :
    (0 < (valid_views_raw m cnv).2 →
      get_valid_views_stats m cnv true =
        ((valid_views_raw m cnv).1.map
            (fun x => x / ((valid_views_raw m cnv).2 : ℚ)),
          (valid_views_raw m cnv).2)) ∧
    ((valid_views_raw m cnv).2 = 0 →
      get_valid_views_stats m cnv true = ((valid_views_raw m cnv).1, 0) ∧
        (valid_views_raw m cnv).1 = List.replicate cnv (0 : ℚ)) := by
  constructor
  · intro hpos
    simp only [get_valid_views_stats]
    rw [if_pos]
    simp [hpos]
  · intro hz
    have hstats : get_valid_views_stats m cnv true = valid_views_raw m cnv := by
      simp only [get_valid_views_stats]
      rw [if_neg]
      simp [hz]
    refine ⟨by rw [hstats, ← hz], ?_⟩
    have hraw : valid_views_raw m cnv =
        (((List.range (m.shape.getD 1 0)).filter
              (fun p => !hasNanPair m p)).foldl
            (bucketStep cnv m) (init_valid_views_dict cnv),
          m.shape.getD 1 0 -
            (List.range (m.shape.getD 1 0)).countP
              (fun p => hasNanPair m p)) := by
      unfold valid_views_raw
      rw [statStep_foldl]
    have hz2 : m.shape.getD 1 0 -
        (List.range (m.shape.getD 1 0)).countP (fun p => hasNanPair m p) = 0 := by
      have := congrArg Prod.snd hraw
      simp only at this
      rw [← this]
      exact hz
    have hcle : (List.range (m.shape.getD 1 0)).countP
        (fun p => hasNanPair m p) ≤ m.shape.getD 1 0 := by
      have := List.countP_le_length (p := fun p => hasNanPair m p)
        (l := List.range (m.shape.getD 1 0))
      simpa using this
    have hceq : (List.range (m.shape.getD 1 0)).countP
        (fun p => hasNanPair m p) = (List.range (m.shape.getD 1 0)).length := by
      rw [List.length_range]
      omega
    have hall := List.countP_eq_length.mp hceq
    have hfil : (List.range (m.shape.getD 1 0)).filter
        (fun p => !hasNanPair m p) = [] := by
      rw [List.filter_eq_nil_iff]
      intro a ha
      simp [hall a ha]
    rw [hraw]
    simp only [hfil, List.foldl_nil]
    rfl

theorem C3_rate_division_guarded_witness :
    get_valid_views_stats maskNanEx 3 true =
      ((valid_views_raw maskNanEx 3).1.map
          (fun x => x / ((valid_views_raw maskNanEx 3).2 : ℚ)),
        (valid_views_raw maskNanEx 3).2) ∧
    (get_valid_views_stats maskAllNanEx 3 true =
        ((valid_views_raw maskAllNanEx 3).1, 0) ∧
      (valid_views_raw maskAllNanEx 3).1 = List.replicate 3 (0 : ℚ)) :=
  ⟨(C3_rate_division_guarded maskNanEx 3).1 (by decide),
   (C3_rate_division_guarded maskAllNanEx 3).2 (by decide)⟩

/-- C5: for a rank-3 mask, bucket `k < concerned_n_view` of the raw
histogram counts exactly the NaN-free points whose number of entries
equal to 1.0 is `k`; points with `n_valid >= concerned_n_view` feed no
bucket yet stay in `total_pairs`; and on the spec's §8.7 mask the raw
histogram is `[0, 0, 1]` with `total_pairs` 4. -/
theorem C5_bucket_rule (m : Tensor) (nv np ld cnv : ℕ)
    (h : m.shape = [nv, np, ld]) :
    (∀ k, k < cnv →
      (get_valid_views_stats m cnv false).1.getD k 0 =
        ((List.range np).countP
          (fun p => !hasNanPair m p && decide (nValid m p = k)) : ℚ)) ∧
    (get_valid_views_stats m cnv false).2 =
      np - (List.range np).countP (fun p => hasNanPair m p) ∧
    get_valid_views_stats maskHistEx 3 false = ([0, 0, 1], 4) := by
  have hnp : m.shape.getD 1 0 = np := by rw [h]; rfl
  have hraw : valid_views_raw m cnv =
      (((List.range np).filter (fun p => !hasNanPair m p)).foldl
          (bucketStep cnv m) (init_valid_views_dict cnv),
        np - (List.range np).countP (fun p => hasNanPair m p)) := by
    unfold valid_views_raw
    rw [hnp, statStep_foldl]
  have h1 : get_valid_views_stats m cnv false = valid_views_raw m cnv := by
    simp [get_valid_views_stats]
  refine ⟨?_, by rw [h1, hraw], by decide⟩
  intro k hk
  rw [h1, hraw]
  simp only
  rw [bucketStep_foldl_getD cnv m _ _ (init_valid_views_dict_length cnv) k hk,
    init_valid_views_dict_getD, zero_add, List.countP_filter]
  have hcomm : (fun a => decide (nValid m a = k) && !hasNanPair m a) =
      (fun a => !hasNanPair m a && decide (nValid m a = k)) := by
    funext a
    exact Bool.and_comm _ _
  rw [hcomm]

theorem C5_bucket_rule_witness :
    (get_valid_views_stats maskHistEx 3 false).1.getD 2 0 =
      ((List.range 4).countP
        (fun p => !hasNanPair maskHistEx p &&
          decide (nValid maskHistEx p = 2)) : ℚ) :=
  (C5_bucket_rule maskHistEx 3 4 1 3 rfl).1 2 (by decide)

/-- C6: for a NaN-free mask of shape `[n_view, n_point, 1]`, the raw
histogram's total mass plus the number of points with
`n_valid >= concerned_n_view` equals `n_point`. -/
theorem C6_histogram_partition (m : Tensor) (nv np cnv : ℕ)
    (h : m.shape = [nv, np, 1])
    (hnn : ∀ p, p < np → hasNanPair m p = false) :
    (get_valid_views_stats m cnv false).1.sum +
      ((List.range np).countP (fun p => decide (cnv ≤ nValid m p)) : ℚ) =
      (np : ℚ) := by
  have hnp : m.shape.getD 1 0 = np := by rw [h]; rfl
  have hraw : valid_views_raw m cnv =
      (((List.range np).filter (fun p => !hasNanPair m p)).foldl
          (bucketStep cnv m) (init_valid_views_dict cnv),
        np - (List.range np).countP (fun p => hasNanPair m p)) := by
    unfold valid_views_raw
    rw [hnp, statStep_foldl]
  have h1 : get_valid_views_stats m cnv false = valid_views_raw m cnv := by
    simp [get_valid_views_stats]
  have hfil : (List.range np).filter (fun p => !hasNanPair m p) =
      List.range np := by
    rw [List.filter_eq_self]
    intro a ha
    simp [hnn a (List.mem_range.mp ha)]
  rw [h1, hraw]
  simp only
  rw [hfil, bucketStep_foldl_sum cnv m _ _ (init_valid_views_dict_length cnv),
    init_valid_views_dict_sum, zero_add]
  have hpart : ∀ l : List ℕ,
      l.countP (fun p => decide (nValid m p < cnv)) +
        l.countP (fun p => decide (cnv ≤ nValid m p)) = l.length := by
    intro l
    induction l with
    | nil => rfl
    | cons a t ih =>
      rw [List.countP_cons, List.countP_cons, List.length_cons]
      by_cases hx : nValid m a < cnv
      · rw [if_pos (by simpa using hx), if_neg (by simp; omega)]
        omega
      · rw [if_neg (by simpa using hx), if_pos (by simp; omega)]
        omega
  have hp2 := hpart (List.range np)
  rw [List.length_range] at hp2
  exact_mod_cast hp2

theorem C6_histogram_partition_witness :
    (get_valid_views_stats (onesTensor [3, 5, 1]) 3 false).1.sum +
      ((List.range 5).countP
        (fun p => decide (3 ≤ nValid (onesTensor [3, 5, 1]) p)) : ℚ) =
      (5 : ℚ) :=
  C6_histogram_partition (onesTensor [3, 5, 1]) 3 5 3 rfl (by decide)

theorem isEmpty_false_of_ne_nil {l : List ℕ} (h : l ≠ []) :
    l.isEmpty = false := by
  cases l with
  | nil => exact absurd rfl h
  | cons a t => rfl

/-- `prepare_triangulate_input` reduces to the three shape checks on the
coerced points tensor and the coerced/synthesized mask tensor. -/
theorem prepare_eq_shapeChecks (cam : ℕ) (pv mv : InVal) (t mt : Tensor)
    (hp : coerceInput pv = some t) (hc : coercedMask t mv = some mt)
    (hts : t.shape ≠ []) :
    prepare_triangulate_input cam pv mv = shapeChecks cam t mt := by
  have hemp := isEmpty_false_of_ne_nil hts
  cases pv with
  | arr t' =>
    obtain rfl : t' = t := by
      simpa only [coerceInput, Option.some.injEq] using hp
    cases mv with
    | arr m =>
      obtain rfl : m = mt := by
        simpa only [coercedMask, Option.some.injEq] using hc
      simp [prepare_triangulate_input, coerceInput]
    | seq m =>
      obtain rfl : m = mt := by
        simpa only [coercedMask, Option.some.injEq] using hc
      simp [prepare_triangulate_input, coerceInput]
    | pynone =>
      obtain rfl : onesTensor (t'.shape.dropLast ++ [1]) = mt := by
        simpa only [coercedMask, Option.some.injEq] using hc
      simp [prepare_triangulate_input, coerceInput, hemp]
    | other => exact absurd hc (by simp [coercedMask])
  | seq t' =>
    obtain rfl : t' = t := by
      simpa only [coerceInput, Option.some.injEq] using hp
    cases mv with
    | arr m =>
      obtain rfl : m = mt := by
        simpa only [coercedMask, Option.some.injEq] using hc
      simp [prepare_triangulate_input, coerceInput]
    | seq m =>
      obtain rfl : m = mt := by
        simpa only [coercedMask, Option.some.injEq] using hc
      simp [prepare_triangulate_input, coerceInput]
    | pynone =>
      obtain rfl : onesTensor (t'.shape.dropLast ++ [1]) = mt := by
        simpa only [coercedMask, Option.some.injEq] using hc
      simp [prepare_triangulate_input, coerceInput, hemp]
    | other => exact absurd hc (by simp [coercedMask])
  | pynone => exact absurd hp (by simp [coerceInput])
  | other => exact absurd hp (by simp [coerceInput])

/-- C4: the three shape validations run in the fixed order view-count,
coordinate-width, mask-shape, failing fast at the first violated check. -/
theorem C4_checks_fixed_order (cam : ℕ) (pv mv : InVal) (t mt : Tensor)
    (hp : coerceInput pv = some t) (hc : coercedMask t mv = some mt)
    (hts : t.shape ≠ []) (hms : mt.shape ≠ []) :
    (¬(t.shape0 = mt.shape0 ∧ t.shape0 = cam) →
      prepare_triangulate_input cam pv mv = .error .viewCountMismatch) ∧
    ((t.shape0 = mt.shape0 ∧ t.shape0 = cam) → t.shapeLast < 2 →
      prepare_triangulate_input cam pv mv = .error .coordWidthTooSmall) ∧
    ((t.shape0 = mt.shape0 ∧ t.shape0 = cam) → ¬(t.shapeLast < 2) →
      (t.shape.dropLast ≠ mt.shape.dropLast ∨ mt.shapeLast ≠ 1) →
      prepare_triangulate_input cam pv mv = .error .maskShapeMismatch) := by
  have hpre := prepare_eq_shapeChecks cam pv mv t mt hp hc hts
  have he1 := isEmpty_false_of_ne_nil hts
  have he2 := isEmpty_false_of_ne_nil hms
  refine ⟨?_, ?_, ?_⟩
  · intro hv
    rw [hpre]
    unfold shapeChecks
    rw [if_neg (by simp [he1, he2]), if_pos hv]
  · intro hv hw
    rw [hpre]
    unfold shapeChecks
    rw [if_neg (by simp [he1, he2]), if_neg (by simpa using hv), if_pos hw]
  · intro hv hw hm
    rw [hpre]
    unfold shapeChecks
    rw [if_neg (by simp [he1, he2]), if_neg (by simpa using hv), if_neg hw,
      if_pos hm]

theorem C4_checks_fixed_order_witness :
    prepare_triangulate_input 3
        (.arr ⟨[2, 3, 2], List.replicate 12 (Val.num 1)⟩) .pynone =
      .error .viewCountMismatch ∧
    prepare_triangulate_input 2
        (.arr ⟨[2, 3, 1], List.replicate 6 (Val.num 1)⟩) .pynone =
      .error .coordWidthTooSmall ∧
    prepare_triangulate_input 2
        (.arr ⟨[2, 3, 2], List.replicate 12 (Val.num 1)⟩)
        (.arr ⟨[2, 3, 2], List.replicate 12 (Val.num 1)⟩) =
      .error .maskShapeMismatch :=
  ⟨(C4_checks_fixed_order 3 (.arr ⟨[2, 3, 2], List.replicate 12 (Val.num 1)⟩)
      .pynone ⟨[2, 3, 2], List.replicate 12 (Val.num 1)⟩
      (onesTensor [2, 3, 1]) rfl rfl (by decide) (by decide)).1 (by decide),
   (C4_checks_fixed_order 2 (.arr ⟨[2, 3, 1], List.replicate 6 (Val.num 1)⟩)
      .pynone ⟨[2, 3, 1], List.replicate 6 (Val.num 1)⟩
      (onesTensor [2, 3, 1]) rfl rfl (by decide) (by decide)).2.1
      (by decide) (by decide),
   (C4_checks_fixed_order 2 (.arr ⟨[2, 3, 2], List.replicate 12 (Val.num 1)⟩)
      (.arr ⟨[2, 3, 2], List.replicate 12 (Val.num 1)⟩)
      ⟨[2, 3, 2], List.replicate 12 (Val.num 1)⟩
      ⟨[2, 3, 2], List.replicate 12 (Val.num 1)⟩ rfl rfl
      (by decide) (by decide)).2.2 (by decide) (by decide) (by decide)⟩

/-- C7: on success, `prepare_triangulate_input` returns the coerced
points tensor unchanged and the coerced mask tensor unchanged; with an
omitted mask it synthesizes an all-ones mask of shape
`points.shape[:-1] + [1]`. -/
theorem C7_success_round_trip (cam : ℕ) (pv mv : InVal) (t mt : Tensor)
    (hp : coerceInput pv = some t) (hc : coercedMask t mv = some mt)
    (r : Tensor × Tensor)
    (hok : prepare_triangulate_input cam pv mv = .ok r) :
    r.1 = t ∧ r.2 = mt ∧
    (mv = .pynone →
      mt.shape = t.shape.dropLast ++ [1] ∧
      ∀ v ∈ mt.data, v = Val.num 1) := by
  by_cases hts : t.shape = []
  · exfalso
    have hne : prepare_triangulate_input cam pv mv ≠ .ok r := by
      cases pv with
      | arr t' =>
        obtain rfl : t' = t := by
          simpa only [coerceInput, Option.some.injEq] using hp
        cases mv with
        | arr m => simp [prepare_triangulate_input, coerceInput,
            shapeChecks, hts]
        | seq m => simp [prepare_triangulate_input, coerceInput,
            shapeChecks, hts]
        | pynone => simp [prepare_triangulate_input, coerceInput, hts]
        | other => exact absurd hc (by simp [coercedMask])
      | seq t' =>
        obtain rfl : t' = t := by
          simpa only [coerceInput, Option.some.injEq] using hp
        cases mv with
        | arr m => simp [prepare_triangulate_input, coerceInput,
            shapeChecks, hts]
        | seq m => simp [prepare_triangulate_input, coerceInput,
            shapeChecks, hts]
        | pynone => simp [prepare_triangulate_input, coerceInput, hts]
        | other => exact absurd hc (by simp [coercedMask])
      | pynone => exact absurd hp (by simp [coerceInput])
      | other => exact absurd hp (by simp [coerceInput])
    exact hne hok
  · rw [prepare_eq_shapeChecks cam pv mv t mt hp hc hts] at hok
    unfold shapeChecks at hok
    split at hok
    · exact absurd hok (by simp)
    · split at hok
      · exact absurd hok (by simp)
      · split at hok
        · exact absurd hok (by simp)
        · split at hok
          · exact absurd hok (by simp)
          · obtain rfl : (t, mt) = r := by
              simpa only [Except.ok.injEq] using hok
            refine ⟨rfl, rfl, ?_⟩
            intro hmv
            subst hmv
            obtain rfl : onesTensor (t.shape.dropLast ++ [1]) = mt := by
              simpa only [coercedMask, Option.some.injEq] using hc
            exact ⟨rfl, fun v hv => List.eq_of_mem_replicate hv⟩

theorem C7_success_round_trip_witness :
    (⟨[2, 3, 2], List.replicate 12 (Val.num 1)⟩ : Tensor) =
      (⟨[2, 3, 2], List.replicate 12 (Val.num 1)⟩ : Tensor) ∧
    onesTensor [2, 3, 1] = onesTensor [2, 3, 1] ∧
    (InVal.pynone = InVal.pynone →
      (onesTensor [2, 3, 1]).shape =
        ([2, 3, 2] : List ℕ).dropLast ++ [1] ∧
      ∀ v ∈ (onesTensor [2, 3, 1]).data, v = Val.num 1) := by
  have h := C7_success_round_trip 2
    (.arr ⟨[2, 3, 2], List.replicate 12 (Val.num 1)⟩) .pynone
    ⟨[2, 3, 2], List.replicate 12 (Val.num 1)⟩ (onesTensor [2, 3, 1])
    rfl rfl
    (⟨[2, 3, 2], List.replicate 12 (Val.num 1)⟩, onesTensor [2, 3, 1])
    (by rfl)
  exact ⟨h.1, h.2.1 ▸ rfl, fun hp => h.2.2 hp⟩

theorem getD_append_two (l : List ℕ) (a b : ℕ) :
    (l ++ [a, b]).getD l.length 0 = a := by
  induction l with
  | nil => rfl
  | cons x xs ih => simpa using ih

theorem dropLast_append_two (l : List ℕ) (a b : ℕ) :
    (l ++ [a, b]).dropLast = l ++ [a] := by
  rw [show l ++ [a, b] = (l ++ [a]) ++ [b] by simp, List.dropLast_concat]

theorem getLastD_append_two (l : List ℕ) (a b : ℕ) :
    (l ++ [a, b]).getLastD 0 = b := by
  rw [show l ++ [a, b] = (l ++ [a]) ++ [b] by simp, List.getLastD_concat]

theorem secondLast_append_two (l : List ℕ) (a b : ℕ) :
    secondLast (l ++ [a, b]) = a := by
  unfold secondLast
  rw [List.length_append]
  exact getD_append_two l a b

theorem getD_mapIdx_lt (l : List Val) (f : ℕ → Val → Val) (i : ℕ) (d : Val)
    (h : i < l.length) :
    (l.mapIdx f).getD i d = f i (l.getD i d) := by
  rw [List.getD_eq_getElem?_getD, List.getD_eq_getElem?_getD,
    List.getElem?_eq_getElem (by simpa using h), List.getElem?_eq_getElem h]
  simp

/-- For a rank-1 validity vector, `rowHasZero` is just an equality test of
the entry against 0. -/
theorem rowHasZero_rank1 (km : Tensor) (nk k : ℕ) (hkm : km.shape = [nk]) :
    rowHasZero km k = decide (km.get k = Val.num 0) := by
  unfold rowHasZero
  rw [hkm]
  simp [show List.range 1 = [0] from rfl]

/-- Full symbolic run of `parse_keypoints_mask` on a well-shaped ndarray
keypoints tensor and an ndarray validity vector of matching length. -/
theorem parse_keypoints_mask_run (nv : ℕ) (mid : List ℕ) (nk d : ℕ)
    (hd : 2 ≤ d) (t km : Tensor) (ht : t.shape = (nv :: mid) ++ [nk, d])
    (hkm0 : km.shape0 = nk) (hkmne : km.shape ≠ []) :
    parse_keypoints_mask (.arr t) (.arr km) =
      .ok (applyKeypointNan (onesTensor ((nv :: mid) ++ [nk, 1])) km) := by
  have hne : t.shape ≠ [] := by rw [ht]; simp
  have hemp := isEmpty_false_of_ne_nil hne
  have hdrop : t.shape.dropLast ++ [1] = (nv :: mid) ++ [nk, 1] := by
    rw [ht, dropLast_append_two]
    simp
  have h00 : t.shape0 = nv := by
    unfold Tensor.shape0
    rw [ht]
    rfl
  have hprep : prepare_triangulate_input t.shape0 (.arr t) .pynone =
      .ok (t, onesTensor ((nv :: mid) ++ [nk, 1])) := by
    rw [prepare_eq_shapeChecks t.shape0 (.arr t) .pynone t
      (onesTensor (t.shape.dropLast ++ [1])) rfl rfl hne, hdrop]
    unfold shapeChecks
    rw [if_neg (by simp [ht, onesTensor]), if_neg, if_neg, if_neg]
    · -- mask-shape check passes
      rw [not_or]
      constructor
      · rw [ht]
        simp only [onesTensor, dropLast_append_two]
        intro hcon
        exact hcon rfl
      · simp only [onesTensor, Tensor.shapeLast]
        intro hcon
        exact hcon (getLastD_append_two _ _ _)
    · -- coordinate width passes
      unfold Tensor.shapeLast
      rw [ht, getLastD_append_two]
      omega
    · -- view-count check passes
      rw [not_not]
      refine ⟨?_, rfl⟩
      rw [h00]
      unfold Tensor.shape0
      simp [onesTensor]
  have hsl : secondLast t.shape = nk := by
    rw [ht]
    exact secondLast_append_two _ _ _
  have hkemp := isEmpty_false_of_ne_nil hkmne
  simp only [parse_keypoints_mask, hemp, hprep, hkemp, Bool.false_eq_true,
    if_false, hsl, hkm0, ne_eq, not_true_eq_false]

/-- C1: for a keypoints tensor of shape `[n_view, ..., n_keypoints, d]`
with `d >= 2` and a validity vector of length `n_keypoints`,
`parse_keypoints_mask` succeeds with a mask of shape
`[n_view, ..., n_keypoints, 1]` in which every entry at a keypoint whose
validity value is 0 is NaN — across every view and leading-axis
combination — and every other entry is 1.0. -/
theorem C1_keypoint_validity_broadcast (nv : ℕ) (mid : List ℕ) (nk d : ℕ)
    (hd : 2 ≤ d) (t km : Tensor)
    (ht : t.shape = (nv :: mid) ++ [nk, d]) (hkm : km.shape = [nk]) :
    ∃ M, parse_keypoints_mask (.arr t) (.arr km) = .ok M ∧
      M.shape = (nv :: mid) ++ [nk, 1] ∧
      M.data.length = (nv :: mid).prod * nk ∧
      ∀ o k, o < (nv :: mid).prod → k < nk →
        M.get (o * nk + k) =
          if km.get k = Val.num 0 then Val.nan else Val.num 1 := by
  refine ⟨applyKeypointNan (onesTensor ((nv :: mid) ++ [nk, 1])) km,
    parse_keypoints_mask_run nv mid nk d hd t km ht
      (by rw [Tensor.shape0, hkm]; rfl) (by rw [hkm]; simp), rfl, ?_, ?_⟩
  · simp only [applyKeypointNan, onesTensor, List.length_mapIdx,
      List.length_replicate, List.prod_append]
    simp
  · intro o k ho hk
    have hi : o * nk + k < (nv :: mid).prod * nk := by
      calc o * nk + k < o * nk + nk := by omega
        _ = (o + 1) * nk := by ring
        _ ≤ (nv :: mid).prod * nk := Nat.mul_le_mul_right _ (by omega)
    have hlen : (List.replicate (((nv :: mid) ++ [nk, 1]).prod)
        (Val.num 1)).length = (nv :: mid).prod * nk := by
      simp [List.prod_append]
      ring
    have hgl : ((nv :: mid) ++ [nk, 1]).getLastD 0 = 1 :=
      getLastD_append_two _ _ _
    have hsl : secondLast ((nv :: mid) ++ [nk, 1]) = nk :=
      secondLast_append_two _ _ _
    have hrep : (List.replicate (((nv :: mid) ++ [nk, 1]).prod)
        (Val.num 1)).getD (o * nk + k) (Val.num 0) = Val.num 1 := by
      rw [List.getD_eq_getElem?_getD,
        List.getElem?_eq_getElem (by rw [hlen]; exact hi)]
      simp
    have hdata : (applyKeypointNan (onesTensor ((nv :: mid) ++ [nk, 1]))
        km).get (o * nk + k) =
        (if rowHasZero km (((o * nk + k) /
              ((nv :: mid) ++ [nk, 1]).getLastD 0) %
            secondLast ((nv :: mid) ++ [nk, 1])) then Val.nan
          else (List.replicate (((nv :: mid) ++ [nk, 1]).prod)
            (Val.num 1)).getD (o * nk + k) (Val.num 0)) := by
      unfold Tensor.get applyKeypointNan onesTensor
      exact getD_mapIdx_lt _ _ _ _ (by rw [hlen]; exact hi)
    rw [hdata, hrep]
    have hmod : (o * nk + k) % nk = k := by
      rw [Nat.mul_comm o nk, Nat.mul_add_mod, Nat.mod_eq_of_lt hk]
    simp only [hgl, hsl, Nat.div_one, hmod, rowHasZero_rank1 km nk k hkm]
    by_cases hz : km.get k = Val.num 0 <;> simp [hz]

theorem C1_keypoint_validity_broadcast_witness :
    ∃ M, parse_keypoints_mask
        (.arr ⟨[2, 3, 2], List.replicate 12 (Val.num 1)⟩)
        (.arr ⟨[3], [Val.num 1, Val.num 0, Val.num 1]⟩) = .ok M ∧
      M.shape = ([2] : List ℕ) ++ [3, 1] ∧
      M.data.length = ([2] : List ℕ).prod * 3 ∧
      ∀ o k, o < ([2] : List ℕ).prod → k < 3 →
        M.get (o * 3 + k) =
          if (⟨[3], [Val.num 1, Val.num 0, Val.num 1]⟩ : Tensor).get k =
              Val.num 0
          then Val.nan else Val.num 1 :=
  C1_keypoint_validity_broadcast 2 [] 3 2 (by decide)
    ⟨[2, 3, 2], List.replicate 12 (Val.num 1)⟩
    ⟨[3], [Val.num 1, Val.num 0, Val.num 1]⟩ rfl rfl

theorem shapeChecks_ok_inv {cam : ℕ} {p m : Tensor} {r : Tensor × Tensor}
    (h : shapeChecks cam p m = .ok r) : r = (p, m) := by
  unfold shapeChecks at h
  split at h
  · exact absurd h (by simp)
  · split at h
    · exact absurd h (by simp)
    · split at h
      · exact absurd h (by simp)
      · split at h
        · exact absurd h (by simp)
        · simpa using h.symm

theorem headD_dropLast_append (s : List ℕ) (h2 : 2 ≤ s.length) :
    (s.dropLast ++ [1]).headD 0 = s.headD 0 := by
  cases s with
  | nil => simp at h2
  | cons a s' =>
    cases s' with
    | nil => simp at h2
    | cons b rest => rfl

/-- C9 (amended): for every ndarray keypoints input of rank at least 2,
`parse_keypoints_mask` never fails with ViewCountMismatch: it passes
`keypoints.shape[0]` as the camera count, and the synthesized mask shares
the leading axis, so the view-count check always passes. -/
theorem C9_no_view_mismatch_rank_ge2 (t : Tensor) (km : InVal)
    (h2 : 2 ≤ t.shape.length) :
    parse_keypoints_mask (.arr t) km ≠ .error .viewCountMismatch := by
  have hne : t.shape ≠ [] := by
    intro hnil
    rw [hnil] at h2
    simp at h2
  have hemp := isEmpty_false_of_ne_nil hne
  have humpne : (onesTensor (t.shape.dropLast ++ [1])).shape ≠ [] := by
    simp [onesTensor]
  have hprep_ne : prepare_triangulate_input t.shape0 (.arr t) .pynone ≠
      .error .viewCountMismatch := by
    rw [prepare_eq_shapeChecks t.shape0 (.arr t) .pynone t
      (onesTensor (t.shape.dropLast ++ [1])) rfl rfl hne]
    unfold shapeChecks
    have hview : t.shape0 = (onesTensor (t.shape.dropLast ++ [1])).shape0 ∧
        t.shape0 = t.shape0 :=
      ⟨(headD_dropLast_append t.shape h2).symm, rfl⟩
    intro hcon
    rw [if_neg (by simp [hemp, isEmpty_false_of_ne_nil humpne]),
      if_neg (not_not_intro hview)] at hcon
    split_ifs at hcon <;> simp at hcon
  intro hcontra
  simp only [parse_keypoints_mask, hemp, Bool.false_eq_true, if_false]
    at hcontra
  rcases hprep : prepare_triangulate_input t.shape0 (.arr t) .pynone
      with e | pm
  · rw [hprep] at hcontra
    simp only [Except.error.injEq] at hcontra
    exact hprep_ne (by rw [hprep, hcontra])
  · rw [hprep] at hcontra
    cases km with
    | arr kmA =>
      by_cases hke : kmA.shape.isEmpty
      · simp [hke] at hcontra
      · by_cases hsec : secondLast pm.1.shape ≠ kmA.shape0
        · simp [hke, hsec] at hcontra
        · simp [hke, hsec] at hcontra
    | seq u => simp at hcontra
    | pynone => simp at hcontra
    | other => simp at hcontra

/-- C9 counterexample: on a rank-1 ndarray of length 2 the synthesized
mask has leading axis 1, so `parse_keypoints_mask` does fail with
ViewCountMismatch, refuting the claim for arbitrary ndarray inputs. -/
theorem C9_rank1_view_mismatch_cex :
    parse_keypoints_mask (.arr ⟨[2], [Val.num 1, Val.num 1]⟩)
      (.arr ⟨[1], [Val.num 1]⟩) = .error .viewCountMismatch := rfl

theorem C9_no_view_mismatch_rank_ge2_witness :
    parse_keypoints_mask (.arr ⟨[2, 3, 2], List.replicate 12 (Val.num 1)⟩)
      (.arr ⟨[3], List.replicate 3 (Val.num 1)⟩) ≠
    .error .viewCountMismatch :=
  C9_no_view_mismatch_rank_ge2 ⟨[2, 3, 2], List.replicate 12 (Val.num 1)⟩
    (.arr ⟨[3], List.replicate 3 (Val.num 1)⟩) (by decide)

/-- C8 (amended): when the delegated normalization succeeds,
`parse_keypoints_mask` fails with KeypointCountMismatch exactly when
`keypoints.shape[-2]` differs from `keypoints_mask.shape[0]`; when they
are equal, the only errors are the ones the delegated normalization
raises. -/
theorem C8_keypoint_count_check (t km : Tensor)
    (h2 : 2 ≤ t.shape.length) (hkmne : km.shape ≠ []) :
    (∀ pr, prepare_triangulate_input t.shape0 (.arr t) .pynone = .ok pr →
      (parse_keypoints_mask (.arr t) (.arr km) =
          .error .keypointCountMismatch ↔
        secondLast t.shape ≠ km.shape0)) ∧
    (secondLast t.shape = km.shape0 →
      ∀ e, parse_keypoints_mask (.arr t) (.arr km) = .error e ↔
        prepare_triangulate_input t.shape0 (.arr t) .pynone = .error e) := by
  have hne : t.shape ≠ [] := by
    intro hnil
    rw [hnil] at h2
    simp at h2
  have hemp := isEmpty_false_of_ne_nil hne
  have hkemp := isEmpty_false_of_ne_nil hkmne
  have hpre := prepare_eq_shapeChecks t.shape0 (.arr t) .pynone t
    (onesTensor (t.shape.dropLast ++ [1])) rfl rfl hne
  constructor
  · intro pr hok
    have hpr : pr = (t, onesTensor (t.shape.dropLast ++ [1])) :=
      shapeChecks_ok_inv (hpre ▸ hok)
    by_cases hsec : secondLast t.shape = km.shape0
    · have hp : parse_keypoints_mask (.arr t) (.arr km) =
          .ok (applyKeypointNan (onesTensor (t.shape.dropLast ++ [1])) km) := by
        simp only [parse_keypoints_mask, hemp, Bool.false_eq_true, if_false,
          hok, hpr]
        simp [hkemp, hsec]
      rw [hp]
      simp [hsec]
    · have hp : parse_keypoints_mask (.arr t) (.arr km) =
          .error .keypointCountMismatch := by
        simp only [parse_keypoints_mask, hemp, Bool.false_eq_true, if_false,
          hok, hpr]
        simp [hkemp, hsec]
      rw [hp]
      simp [hsec]
  · intro hsec e
    rcases hprep : prepare_triangulate_input t.shape0 (.arr t) .pynone
        with e' | pr
    · have hp : parse_keypoints_mask (.arr t) (.arr km) = .error e' := by
        simp only [parse_keypoints_mask, hemp, Bool.false_eq_true, if_false,
          hprep]
      rw [hp]
      constructor
      · intro h
        injection h with h'
        rw [h']
      · intro h
        injection h with h'
        rw [h']
    · have hpr : pr = (t, onesTensor (t.shape.dropLast ++ [1])) :=
        shapeChecks_ok_inv (hpre ▸ hprep)
      have hp : parse_keypoints_mask (.arr t) (.arr km) =
          .ok (applyKeypointNan (onesTensor (t.shape.dropLast ++ [1])) km) := by
        simp only [parse_keypoints_mask, hemp, Bool.false_eq_true, if_false,
          hprep, hpr]
        simp [hkemp, hsec]
      rw [hp]
      simp

/-- C8 counterexample: keypoint-axis length 3 differs from
validity-vector length 5, yet the call fails with CoordWidthTooSmall
(raised by the delegated normalization, which runs first), not with
KeypointCountMismatch. -/
theorem C8_keypoint_count_check_cex :
    parse_keypoints_mask (.arr ⟨[2, 3, 1], List.replicate 6 (Val.num 1)⟩)
        (.arr ⟨[5], List.replicate 5 (Val.num 1)⟩) =
      .error .coordWidthTooSmall ∧
    secondLast (⟨[2, 3, 1], List.replicate 6 (Val.num 1)⟩ : Tensor).shape ≠
      (⟨[5], List.replicate 5 (Val.num 1)⟩ : Tensor).shape0 :=
  ⟨rfl, by decide⟩

theorem C8_keypoint_count_check_witness :
    parse_keypoints_mask (.arr ⟨[2, 3, 2], List.replicate 12 (Val.num 1)⟩)
        (.arr ⟨[4], List.replicate 4 (Val.num 1)⟩) =
      .error .keypointCountMismatch ↔
    secondLast (⟨[2, 3, 2], List.replicate 12 (Val.num 1)⟩ : Tensor).shape ≠
      (⟨[4], List.replicate 4 (Val.num 1)⟩ : Tensor).shape0 :=
  (C8_keypoint_count_check ⟨[2, 3, 2], List.replicate 12 (Val.num 1)⟩
    ⟨[4], List.replicate 4 (Val.num 1)⟩ (by decide) (by decide)).1
    (⟨[2, 3, 2], List.replicate 12 (Val.num 1)⟩, onesTensor [2, 3, 1]) rfl

/-- C10 (amended): a list or tuple keypoints argument always fails with
an AttributeError (`.shape` is read before any coercion), and a call
omitting `keypoints_mask` whose keypoints pass the delegated
normalization fails with an AttributeError at `keypoints_mask.shape[0]`;
AttributeError lies outside the spec's error taxonomy. -/
theorem C10_attribute_errors :
    (∀ t km, parse_keypoints_mask (.seq t) km = .error .attributeError) ∧
    (∀ t pr, prepare_triangulate_input (Tensor.shape0 t) (.arr t) .pynone =
        .ok pr →
      parse_keypoints_mask (.arr t) .pynone = .error .attributeError) ∧
    specTaxonomy .attributeError = false := by
  refine ⟨fun t km => rfl, ?_, rfl⟩
  intro t pr hok
  have hne : t.shape ≠ [] := by
    intro hnil
    have hbad : prepare_triangulate_input t.shape0 (.arr t) .pynone =
        .error .indexError := by
      simp [prepare_triangulate_input, coerceInput, hnil]
    rw [hbad] at hok
    exact absurd hok (by simp)
  simp only [parse_keypoints_mask, isEmpty_false_of_ne_nil hne,
    Bool.false_eq_true, if_false, hok]

/-- C10 counterexample: with `keypoints_mask` omitted but keypoints of
last-axis width 1, the call fails with CoordWidthTooSmall from the
delegated normalization, not with an AttributeError. -/
theorem C10_attribute_errors_cex :
    parse_keypoints_mask (.arr ⟨[2, 3, 1], List.replicate 6 (Val.num 1)⟩)
        .pynone = .error .coordWidthTooSmall ∧
    parse_keypoints_mask (.arr ⟨[2, 3, 1], List.replicate 6 (Val.num 1)⟩)
        .pynone ≠ .error .attributeError := by
  refine ⟨rfl, ?_⟩
  intro hcon
  rw [show parse_keypoints_mask
      (.arr ⟨[2, 3, 1], List.replicate 6 (Val.num 1)⟩) .pynone =
      .error .coordWidthTooSmall from rfl] at hcon
  simp at hcon

theorem C10_attribute_errors_witness :
    parse_keypoints_mask (.seq ⟨[2, 3, 2], List.replicate 12 (Val.num 1)⟩)
        .pynone = .error .attributeError ∧
    parse_keypoints_mask (.arr ⟨[2, 3, 2], List.replicate 12 (Val.num 1)⟩)
        .pynone = .error .attributeError :=
  ⟨C10_attribute_errors.1 ⟨[2, 3, 2], List.replicate 12 (Val.num 1)⟩
      .pynone,
   C10_attribute_errors.2.1 ⟨[2, 3, 2], List.replicate 12 (Val.num 1)⟩
     (⟨[2, 3, 2], List.replicate 12 (Val.num 1)⟩, onesTensor [2, 3, 1]) rfl⟩
